import Mathlib

/-!
Verification of the hud_manager skin-collection core.

This file is a shallow embedding of the collection manager in `src/lib.rs`
(struct `Huds`: `scan_for_huds`, `set_active_hud`, `save_favorites`,
`update_favorites`, and `impl Ord for Hud`) and of the relevance filter
`App::search` in `src/main.rs`, together with theorems settling the
specification claims about them.

Modelling conventions:
- Filesystem paths (`PathBuf`) are lists of components.
- The filesystem itself is explicit state: a set of existing directories plus
  a log of the renames performed, threaded through `set_active_hud`; the
  favorites file is an `Option String` (`none` = the file does not exist).
- `custom_dir()` depends on the location of the running executable, which is
  ambient environment, not collection state; its result is passed in as an
  `Except String FsPath` parameter.
- The directory walks of `scan_for_huds` are passed in as their results: the
  first `info.vdf` entry found under the content root (if any) and the list of
  `info.vdf` entries found under the `huds` sub-directory, in traversal order.
- Rust `String` comparison is byte-wise lexicographic on the UTF-8 encoding,
  which coincides with code-point lexicographic order on the character
  sequence; it is embedded as `charListCmp` on `String.data`.
- `HashSet String` is embedded as a `List String` used only through
  membership; `HashSet::insert` becomes `setInsert` (append if absent).
- A Rust panic (`expect`) aborts the process and is distinct from a returned
  `Err`; it is embedded as the dedicated outcome `Err.panicked`.
- `Vec::sort_unstable` is a deterministic comparison sort with respect to
  `Ord for Hud`; it is embedded as insertion sort with respect to the same
  ordering (the claims depend on sortedness and on the output being a
  function of the input only, not on which comparison sort is used).
-/

/-- A filesystem path, as its list of components (Rust `PathBuf`). -/
abbrev FsPath := List String

/-- `const HUDS: &str = "huds"` — the sub-directory holding non-active huds. -/
def HUDS : String := "huds"

/-- `struct Hud` (src/lib.rs): one discovered hud, with its directory name,
its current backing directory, and its favorite flag. -/
structure Hud where
  name : String
  path : FsPath
  favorite : Bool
  deriving DecidableEq

/-- Lexicographic comparison of character lists; for valid UTF-8 this is the
same total order as Rust's byte-wise `String::cmp`. -/
def charListCmp : List Char → List Char → Ordering
  | [], [] => Ordering.eq
  | [], _ :: _ => Ordering.lt
  | _ :: _, [] => Ordering.gt
  | a :: as, b :: bs =>
    if a < b then Ordering.lt
    else if b < a then Ordering.gt
    else charListCmp as bs

/-- Rust `String::cmp` (case-sensitive, byte-wise lexicographic). -/
def strCmp (a b : String) : Ordering := charListCmp a.data b.data

/-- `impl Ord for Hud` (src/lib.rs lines 148-157): favorited huds sort before
non-favorited ones; within a group, by name. -/
def Hud.cmp (a b : Hud) : Ordering :=
  match a.favorite, b.favorite with
  | true, true => strCmp a.name b.name
  | true, false => Ordering.lt
  | false, true => Ordering.gt
  | false, false => strCmp a.name b.name

/-- The non-strict order induced by `Hud.cmp` (`a` sorts no later than `b`). -/
def hudLe (a b : Hud) : Prop := Hud.cmp a b ≠ Ordering.gt

instance : DecidableRel hudLe := fun a b => by
  unfold hudLe
  infer_instance

/-- `self.huds.sort_unstable()` (src/lib.rs line 46): a comparison sort with
respect to `Ord for Hud`, embedded as insertion sort. -/
def hudSort (l : List Hud) : List Hud := List.insertionSort hudLe l

/-- `struct Huds` (src/lib.rs): the collection state — discovered huds, the
currently active hud (if any), and the favorited names. -/
structure Huds where
  huds : List Hud
  active_hud : Option Hud
  favorites : List String
  deriving DecidableEq

/-- `HashSet::insert`: add an element unless it is already present. -/
def setInsert (s : List String) (x : String) : List String :=
  if s.contains x then s else s ++ [x]

/-- Outcomes of the fallible operations. `layout` is the `bail!` in
`custom_dir`, `alreadyActive` the `ensure!` in `set_active_hud`, `io` the
`with_context` I/O failures. `panicked` models a Rust panic (process abort,
the `expect` in `find_hud`) — it is not a returned `Err`. `notFound` is the
spec taxonomy's NotFoundError; the code never constructs it. -/
inductive Err where
  | layout (msg : String)
  | alreadyActive
  | io (msg : String)
  | notFound
  | panicked (msg : String)
  deriving DecidableEq

/-- `Hud::from_vdf` (src/lib.rs lines 134-145): pop the `info.vdf` file name,
take the remaining last component as the hud's name (`file_name().unwrap()`;
walk entries always have a last component). -/
def Hud.from_vdf (vdf : FsPath) : Hud :=
  let path := vdf.dropLast
  let name := path.getLastD ""
  { name := name, path := path, favorite := false }

/-- `Huds::scan_for_huds` (src/lib.rs lines 22-49). `customDirRes` is the
result of `custom_dir()`; `rootVdf` is the first `info.vdf` entry of the walk
of the content root (depth ≤ 2), if any; `hudsVdfs` are the `info.vdf`
entries of the walk of the `huds` sub-directory, in traversal order. Clears
`huds`, pushes the root hud (also recorded as `active_hud`) and then the
sub-directory huds, stamping each `favorite` flag from `favorites`, and
finally sorts. Note `active_hud` is only assigned when `rootVdf` is present.
Walk errors are skipped by `.flatten()`, so after `custom_dir` succeeds the
scan always returns `Ok`. -/
def scanForHuds (customDirRes : Except String FsPath) (rootVdf : Option FsPath)
    (hudsVdfs : List FsPath) (s : Huds) : Except Err Unit × Huds :=
  match customDirRes with
  | Except.error e => (Except.error (Err.layout e), s)
  | Except.ok _ =>
    let hudFromVdf := fun (p : FsPath) =>
      let h := Hud.from_vdf p
      { h with favorite := s.favorites.contains h.name }
    let rootHud := rootVdf.map hudFromVdf
    let newHuds := rootHud.toList ++ hudsVdfs.map hudFromVdf
    let newActive := match rootHud with
      | some h => some h
      | none => s.active_hud
    (Except.ok (), { s with huds := hudSort newHuds, active_hud := newActive })

/-- The filesystem as seen by `set_active_hud`: the set of directories that
exist, plus a log of the renames performed so far, in order. -/
structure DiskState where
  dirs : List FsPath
  log : List (FsPath × FsPath)
  deriving DecidableEq

/-- `Path::exists`. -/
def DiskState.existsDir (fs : DiskState) (p : FsPath) : Bool := fs.dirs.contains p

/-- `fs::rename`: fails when the source does not exist; on success the source
directory now exists at the destination and the move is logged. -/
def DiskState.rename (fs : DiskState) (src dst : FsPath) : Option DiskState :=
  if fs.dirs.contains src then
    some { dirs := dst :: fs.dirs.erase src, log := fs.log ++ [(src, dst)] }
  else none

/-- The in-place path update done through `find_hud`'s `&mut` result: set the
path of the first hud with the given name. -/
def setPathFirst : List Hud → String → FsPath → List Hud
  | [], _, _ => []
  | h :: rest, name, dst =>
    if h.name = name then { h with path := dst } :: rest
    else h :: setPathFirst rest name dst

/-- Second half of `Huds::set_active_hud` (src/lib.rs lines 64-70): look up
the requested hud (`find_hud`, panicking when absent), move its directory
into the content root, update its path and record it as active. -/
def activateTarget (customDir : FsPath) (s : Huds) (hud : String)
    (fs : DiskState) : Except Err Unit × Huds × DiskState :=
  match s.huds.find? (fun h => h.name == hud) with
  | none => (Except.error (Err.panicked "hud should exist"), s, fs)
  | some h =>
    match fs.rename h.path (customDir ++ [hud]) with
    | none => (Except.error (Err.io "failed to move hud"), s, fs)
    | some fs1 =>
      (Except.ok (),
        { s with huds := setPathFirst s.huds hud (customDir ++ [hud]),
                 active_hud := some { h with path := customDir ++ [hud] } },
        fs1)

/-- `Huds::set_active_hud` (src/lib.rs lines 51-79). If there is an active
hud whose directory still exists: reject activating it again, otherwise move
it into the `huds` sub-directory (two path components appended: the `huds`
segment and the name) and update its path; then activate the requested hud. -/
def setActiveHud (customDirRes : Except String FsPath) (s : Huds) (hud : String)
    (fs : DiskState) : Except Err Unit × Huds × DiskState :=
  match customDirRes with
  | Except.error e => (Except.error (Err.layout e), s, fs)
  | Except.ok customDir =>
    match Option.filter (fun h => fs.existsDir h.path) s.active_hud with
    | some activeHud =>
      if hud = activeHud.name then (Except.error Err.alreadyActive, s, fs)
      else
        match fs.rename activeHud.path (customDir ++ [HUDS, activeHud.name]) with
        | none => (Except.error (Err.io "failed to move hud"), s, fs)
        | some fs1 =>
          match s.huds.find? (fun h => h.name == activeHud.name) with
          | none => (Except.error (Err.panicked "hud should exist"), s, fs1)
          | some _ =>
            activateTarget customDir
              { s with
                huds := setPathFirst s.huds activeHud.name (customDir ++ [HUDS, activeHud.name]) }
              hud fs1
    | none => activateTarget customDir s hud fs

/-- Rust `[&str]::join("\n")`. -/
def strJoinLines (names : List String) : String :=
  String.mk (List.intercalate ['\n'] (names.map String.data))

/-- `Huds::save_favorites` (src/lib.rs lines 81-105): clear `favorites`,
take the favorited prefix of `huds`, re-insert each of its names into
`favorites` while collecting them (the `inspect` in the iterator chain), and
overwrite the favorites file with the newline-joined names. The file-system
side (`create_dir_all`, `File::create`, `write_all`) is modelled as
succeeding; the written content is the returned `Option String`. -/
def saveFavorites (customDirRes : Except String FsPath) (s : Huds)
    (favFile : Option String) : Except Err Unit × Huds × Option String :=
  match customDirRes with
  | Except.error e => (Except.error (Err.layout e), s, favFile)
  | Except.ok _ =>
    let names := (s.huds.takeWhile (fun h => h.favorite)).map (fun h => h.name)
    (Except.ok (),
      { s with favorites := names.foldl setInsert [] },
      some (strJoinLines names))

/-- Core of Rust `str::lines` on the character list: a line ends at each
line feed, whose terminator — the line feed together with a carriage return
immediately preceding it — is removed; any other carriage return is ordinary
content. A final segment with no terminating line feed is kept verbatim (in
particular a lone trailing carriage return stays, per the `str::lines`
doctest), and yields no line at all when it is empty. Blank lines yield
empty pieces. -/
def linesOfChars : List Char → List (List Char)
  | [] => []
  | '\r' :: '\n' :: cs => [] :: linesOfChars cs
  | '\n' :: cs => [] :: linesOfChars cs
  | c :: cs =>
    match linesOfChars cs with
    | [] => [[c]]
    | l :: ls => (c :: l) :: ls

/-- Rust `str::lines` (see `linesOfChars`). -/
def rustLines (s : String) : List String :=
  (linesOfChars s.data).map (fun l => String.mk l)

/-- `Huds::update_favorites` (src/lib.rs lines 107-123). `favFile` is the
favorites file: `none` when it does not exist, in which case the sub-directory
and an empty file are created and the function returns early — `favorites` is
not touched. Otherwise the file's decoded content is read (`read_to_string`;
the parameter presumes the read succeeds and the content is valid UTF-8) and
`favorites` is replaced by its lines, collected into a set. -/
def updateFavorites (customDirRes : Except String FsPath) (favFile : Option String)
    (s : Huds) : Except Err Unit × Huds × Option String :=
  match customDirRes with
  | Except.error e => (Except.error (Err.layout e), s, favFile)
  | Except.ok _ =>
    match favFile with
    | none => (Except.ok (), s, some "")
    | some content =>
      (Except.ok (),
        { s with favorites := (rustLines content).foldl setInsert [] },
        some content)

/-- One fuzzy-match result of `Pattern::match_list`: a candidate name and its
score. The scoring function itself is the external capability excluded by the
spec; `App::search` consumes its output list. -/
structure ScoredName where
  name : String
  score : Nat
  deriving DecidableEq

/-- The threshold test `(score as f32 / highest as f32) >= 0.8` of
`App::search` (src/main.rs line 69), made exact for scores below 2^24 (which
convert to `f32` without rounding). `0.8f32` is `13421773 * 2^-24`; IEEE-754
division rounds to nearest, ties to even, so the quotient compares `≥ 0.8f32`
exactly when the real quotient exceeds the midpoint `26843545 * 2^-25` of
`0.8f32` and its predecessor — that is, when `2^25 * score > 26843545 *
highest`. (For `score = highest = 0` the quotient is NaN and the comparison is
false, which the inequality also yields.) -/
def ratioGe80 (score highest : Nat) : Bool :=
  decide (26843545 * highest < 33554432 * score)

/-- `App::search` (src/main.rs lines 48-73). Takes the query and the match
results (the external matcher's output: every matching name with its score,
sorted by descending score, as `Pattern::match_list` returns them). Clears
the previous results and error; an empty query shows everything (no filter,
no error); zero matches raise the "no results" error; otherwise `highest` is
the first (= top) score and every match within the relative threshold is
collected into the result set. Returns (search_results, error). -/
def App.search (query : String) (matchResults : List ScoredName) :
    List String × Option String :=
  if query = "" then ([], none)
  else
    match matchResults with
    | [] => ([], some "no results")
    | r0 :: _ =>
      let kept := matchResults.filter (fun r => ratioGe80 r.score r0.score)
      ((kept.map (fun r => r.name)).foldl setInsert [], none)

deriving instance DecidableEq for Except

/-! Concrete fixture states used by counterexamples and witnesses. -/

/-- The empty collection state. -/
def st0 : Huds := { huds := [], active_hud := none, favorites := [] }

/-- A state whose recorded active hud is `h` backed by directory `["p"]`. -/
def stStale : Huds :=
  { huds := [], active_hud := some { name := "h", path := ["p"], favorite := false },
    favorites := [] }

/-- An empty collection state whose favorites set already holds `x`. -/
def stFavX : Huds := { huds := [], active_hud := none, favorites := ["x"] }

/-- Hud `A`, resident at the content root `["c"]`. -/
def hudA : Hud := { name := "A", path := ["c", "A"], favorite := false }

/-- Hud `B`, resident in the `huds` sub-directory. -/
def hudB : Hud := { name := "B", path := ["c", "huds", "B"], favorite := false }

/-- Collection holding `A` (active) and `B`. -/
def stAB : Huds := { huds := [hudA, hudB], active_hud := some hudA, favorites := [] }

/-- Disk on which both `A` and `B` are present. -/
def fsAB : DiskState := { dirs := [["c", "A"], ["c", "huds", "B"]], log := [] }

/-- Disk on which only `B` is present (`A`'s backing directory is gone). -/
def fsB : DiskState := { dirs := [["c", "huds", "B"]], log := [] }

/-- Match results for the query "Alph" over names Alpha, Alphb, Zeta, with
near-equal top scores for the first two, in descending order. -/
def demoResults : List ScoredName :=
  [{ name := "Alpha", score := 100 }, { name := "Alphb", score := 85 },
   { name := "Zeta", score := 10 }]

/-! ### Properties of the hud ordering -/

theorem charListCmp_swap (as bs : List Char) :
    charListCmp bs as = (charListCmp as bs).swap := by
  induction as generalizing bs with
  | nil => cases bs <;> rfl
  | cons a as ih =>
    cases bs with
    | nil => rfl
    | cons b bs =>
      by_cases hab : a < b
      · have hba : ¬ b < a := lt_asymm hab
        simp [charListCmp, hab, hba, Ordering.swap]
      · by_cases hba : b < a
        · simp [charListCmp, hab, hba, Ordering.swap]
        · simp [charListCmp, hab, hba, ih bs]

theorem charListCmp_eq_iff (as bs : List Char) :
    charListCmp as bs = Ordering.eq ↔ as = bs := by
  induction as generalizing bs with
  | nil => cases bs <;> simp [charListCmp]
  | cons a as ih =>
    cases bs with
    | nil => simp [charListCmp]
    | cons b bs =>
      rcases lt_trichotomy a b with hab | hab | hab
      · simp only [charListCmp, if_pos hab]
        constructor
        · intro h; exact absurd h (by decide)
        · intro h
          injection h with h1 h2
          exact absurd (h1 ▸ hab) (lt_irrefl a)
      · subst hab
        simp [charListCmp, lt_irrefl, ih bs]
      · have hba : ¬ a < b := lt_asymm hab
        simp only [charListCmp, if_neg hba, if_pos hab]
        constructor
        · intro h; exact absurd h (by decide)
        · intro h
          injection h with h1 h2
          exact absurd (h1 ▸ hab) (lt_irrefl a)

theorem charListCmp_lt_trans {as bs cs : List Char}
    (h1 : charListCmp as bs = Ordering.lt) (h2 : charListCmp bs cs = Ordering.lt) :
    charListCmp as cs = Ordering.lt := by
  induction as generalizing bs cs with
  | nil =>
    cases bs with
    | nil => exact absurd h1 (by decide)
    | cons b bs =>
      cases cs with
      | nil => exact absurd h2 (by simp [charListCmp])
      | cons c cs => rfl
  | cons a as ih =>
    cases bs with
    | nil => exact absurd h1 (by simp [charListCmp])
    | cons b bs =>
      cases cs with
      | nil => exact absurd h2 (by simp [charListCmp])
      | cons c cs =>
        simp only [charListCmp] at h1 h2 ⊢
        rcases lt_trichotomy a b with hab | hab | hab
        · rcases lt_trichotomy b c with hbc | hbc | hbc
          · simp [lt_trans hab hbc]
          · subst hbc; simp [hab]
          · simp [lt_asymm hbc, hbc] at h2
        · subst hab
          rcases lt_trichotomy a c with hac | hac | hac
          · simp [hac]
          · subst hac
            simp only [lt_irrefl, if_neg (lt_irrefl a)] at h1 h2 ⊢
            simp at h1 h2
            exact ih h1 h2
          · simp [lt_asymm hac, hac] at h2
        · simp [lt_asymm hab, hab] at h1

theorem charListCmp_le_trans {as bs cs : List Char}
    (h1 : charListCmp as bs ≠ Ordering.gt) (h2 : charListCmp bs cs ≠ Ordering.gt) :
    charListCmp as cs ≠ Ordering.gt := by
  cases hab : charListCmp as bs with
  | gt => exact absurd hab h1
  | eq =>
    rw [charListCmp_eq_iff] at hab
    subst hab
    exact h2
  | lt =>
    cases hbc : charListCmp bs cs with
    | gt => exact absurd hbc h2
    | eq =>
      rw [charListCmp_eq_iff] at hbc
      subst hbc
      simp [hab]
    | lt => simp [charListCmp_lt_trans hab hbc]

theorem strCmp_le_total (x y : String) :
    strCmp x y ≠ Ordering.gt ∨ strCmp y x ≠ Ordering.gt := by
  unfold strCmp
  cases h : charListCmp x.data y.data with
  | lt => left; simp [h]
  | eq => left; simp [h]
  | gt =>
    right
    rw [charListCmp_swap, h]
    decide

theorem hudLe_total (a b : Hud) : hudLe a b ∨ hudLe b a := by
  unfold hudLe Hud.cmp
  cases ha : a.favorite <;> cases hb : b.favorite <;> simp
  · exact strCmp_le_total a.name b.name
  · exact strCmp_le_total a.name b.name

theorem hudLe_trans (a b c : Hud) (h1 : hudLe a b) (h2 : hudLe b c) : hudLe a c := by
  unfold hudLe Hud.cmp strCmp at h1 h2 ⊢
  cases ha : a.favorite <;> cases hb : b.favorite <;> cases hc : c.favorite <;>
    simp_all <;> exact charListCmp_le_trans h1 h2

theorem hudSort_pairwise (l : List Hud) : (hudSort l).Pairwise hudLe :=
  @List.sorted_insertionSort Hud hudLe _ ⟨hudLe_total⟩ ⟨hudLe_trans⟩ l

theorem hudLe_imp {a b : Hud} (h : hudLe a b) :
    (b.favorite = true → a.favorite = true) ∧
    (a.favorite = b.favorite → strCmp a.name b.name ≠ Ordering.gt) := by
  unfold hudLe Hud.cmp at h
  cases ha : a.favorite <;> cases hb : b.favorite <;> simp_all

/-- C1: for every collection state, after any successful scan the `huds`
sequence is sorted so that every favorited hud precedes every non-favorited
hud, and within each group huds are in ascending name order under the
case-sensitive byte-wise string comparison. -/
theorem scan_assets_sorted (d : FsPath) (rootVdf : Option FsPath)
    (hudsVdfs : List FsPath) (s : Huds) :
    ((scanForHuds (Except.ok d) rootVdf hudsVdfs s).2).huds.Pairwise
      (fun a b => (b.favorite = true → a.favorite = true) ∧
        (a.favorite = b.favorite → strCmp a.name b.name ≠ Ordering.gt)) :=
  List.Pairwise.imp (fun h => hudLe_imp h) (hudSort_pairwise _)

/-! ### Set-insert and line-splitting helpers -/

theorem mem_setInsert (acc : List String) (x n : String) :
    n ∈ setInsert acc x ↔ n ∈ acc ∨ n = x := by
  unfold setInsert
  by_cases hx : x ∈ acc
  · have hc : acc.contains x = true := by simpa using hx
    rw [if_pos hc]
    constructor
    · exact Or.inl
    · rintro (hn | rfl)
      · exact hn
      · exact hx
  · have hc : ¬ acc.contains x = true := by simpa using hx
    rw [if_neg hc]
    simp [List.mem_append]

theorem mem_foldl_setInsert (l acc : List String) (n : String) :
    n ∈ l.foldl setInsert acc ↔ n ∈ acc ∨ n ∈ l := by
  induction l generalizing acc with
  | nil => simp
  | cons x xs ih =>
    simp only [List.foldl_cons, ih, mem_setInsert, List.mem_cons]
    tauto

theorem head?_dropWhile_false {α : Type} (p : α → Bool) (l : List α) :
    ∀ x, (l.dropWhile p).head? = some x → p x = false := by
  induction l with
  | nil =>
    intro x hx
    simp [List.dropWhile] at hx
  | cons a as ih =>
    intro x hx
    rw [List.dropWhile_cons] at hx
    by_cases ha : p a
    · exact ih x (by simpa [ha] using hx)
    · rw [if_neg ha] at hx
      simp only [List.head?_cons, Option.some.injEq] at hx
      subst hx
      exact Bool.eq_false_iff.mpr ha

/-! ### Scan: frame and rebuild behaviour -/

/-- C10: scan never modifies the favorites set: whether it fails (layout
error from `custom_dir`) or succeeds, the post-call `favorites` is identical
to its pre-call value — the scan only reads it to stamp each discovered hud's
favorite flag. -/
theorem scan_preserves_favorites (customDirRes : Except String FsPath)
    (rootVdf : Option FsPath) (hudsVdfs : List FsPath) (s : Huds) :
    ((scanForHuds customDirRes rootVdf hudsVdfs s).2).favorites = s.favorites := by
  cases customDirRes <;> rfl

/-- C3 counterexample: a successful scan whose root walk finds no descriptor
file does not clear `active_hud`: starting from `stStale` (recorded active
hud `h`), the scan succeeds yet `active_hud` is still `some h`, not `none`. -/
theorem scan_stale_active_cex :
    (scanForHuds (Except.ok ["c"]) none [] stStale).1 = Except.ok ()
    ∧ (scanForHuds (Except.ok ["c"]) none [] stStale).2.active_hud
        = some { name := "h", path := ["p"], favorite := false }
    ∧ (scanForHuds (Except.ok ["c"]) none [] stStale).2.active_hud ≠ none := by
  refine ⟨rfl, rfl, ?_⟩
  decide

/-- C3 (amended): a successful scan rebuilds `huds` from the walk results and
the favorites set alone, independent of the pre-call `huds` and `active_hud`;
`active_hud` is replaced by the discovered root hud when the root walk finds
a descriptor, but when it finds none `active_hud` retains its pre-call value
instead of being reset to `none`. -/
theorem scan_rebuild_amended (d : FsPath) (rootVdf : Option FsPath)
    (hudsVdfs : List FsPath) (s1 s2 : Huds) (hfav : s1.favorites = s2.favorites) :
    (scanForHuds (Except.ok d) rootVdf hudsVdfs s1).2.huds
      = (scanForHuds (Except.ok d) rootVdf hudsVdfs s2).2.huds
    ∧ (rootVdf.isSome = true →
        (scanForHuds (Except.ok d) rootVdf hudsVdfs s1).2.active_hud
          = (scanForHuds (Except.ok d) rootVdf hudsVdfs s2).2.active_hud)
    ∧ (rootVdf = none →
        (scanForHuds (Except.ok d) rootVdf hudsVdfs s1).2.active_hud
          = s1.active_hud) := by
  cases rootVdf <;> simp [scanForHuds, hfav]

theorem scan_rebuild_amended_witness :
    (scanForHuds (Except.ok ["c"]) none [] stStale).2.huds
      = (scanForHuds (Except.ok ["c"]) none [] st0).2.huds
    ∧ ((none : Option FsPath).isSome = true →
        (scanForHuds (Except.ok ["c"]) none [] stStale).2.active_hud
          = (scanForHuds (Except.ok ["c"]) none [] st0).2.active_hud)
    ∧ ((none : Option FsPath) = none →
        (scanForHuds (Except.ok ["c"]) none [] stStale).2.active_hud
          = stStale.active_hud) :=
  scan_rebuild_amended ["c"] none [] stStale st0 (by decide)

/-! ### Favorites persistence -/

/-- C2: after a successful `save_favorites`, the file content is exactly the
newline-joined names of the longest prefix of `huds` whose elements all have
`favorite = true` (the prefix is maximal: the first hud after it, if any, is
not favorited), and the in-memory favorites set equals exactly the set of
names of that same prefix. -/
theorem save_favorites_spec (d : FsPath) (s : Huds) (favFile : Option String) :
    ∃ pfx rest : List Hud,
      s.huds = pfx ++ rest
      ∧ (∀ h ∈ pfx, h.favorite = true)
      ∧ (∀ h : Hud, rest.head? = some h → h.favorite = false)
      ∧ (saveFavorites (Except.ok d) s favFile).1 = Except.ok ()
      ∧ (saveFavorites (Except.ok d) s favFile).2.2
          = some (strJoinLines (pfx.map (fun h => h.name)))
      ∧ (∀ n, n ∈ (saveFavorites (Except.ok d) s favFile).2.1.favorites
          ↔ n ∈ pfx.map (fun h => h.name)) := by
  refine ⟨s.huds.takeWhile (fun h => h.favorite),
    s.huds.dropWhile (fun h => h.favorite),
    (List.takeWhile_append_dropWhile _ _).symm, ?_, ?_, rfl, rfl, ?_⟩
  · intro h hh
    exact List.mem_takeWhile_imp hh
  · intro h hh
    exact head?_dropWhile_false _ _ h hh
  · intro n
    show n ∈ List.foldl setInsert [] _ ↔ _
    simp [mem_foldl_setInsert]

/-- C7 counterexample: reading a favorites file whose content is "a\n\nb"
(a blank middle line) puts the empty string into `favorites`, so the set is
not the set of the file's non-empty lines as the claim states. -/
theorem update_favorites_blank_line_cex :
    ¬ (∀ n, n ∈ (updateFavorites (Except.ok ["c"]) (some "a\n\nb") st0).2.1.favorites
        ↔ (n ∈ rustLines "a\n\nb" ∧ n ≠ "")) := by
  intro hcl
  have h0 := (hcl "").mp (by decide)
  exact h0.2 rfl

/-- C7 (amended): after a successful `update_favorites` on an existing,
decodable favorites file, `favorites` equals exactly the set of all the
file's lines, each stripped of its line terminator only — a blank line
contributes the empty string to the set. -/
theorem update_favorites_all_lines (d : FsPath) (c : String) (s : Huds) :
    (updateFavorites (Except.ok d) (some c) s).1 = Except.ok ()
    ∧ (∀ n, n ∈ (updateFavorites (Except.ok d) (some c) s).2.1.favorites
        ↔ n ∈ rustLines c) := by
  refine ⟨rfl, fun n => ?_⟩
  show n ∈ List.foldl setInsert [] _ ↔ _
  simp [mem_foldl_setInsert]

/-- C8 counterexample: when the favorites file does not exist,
`update_favorites` succeeds but does not clear a previously non-empty
favorites set: starting from `stFavX` (favorites = x), the set still
holds `x` afterwards instead of being empty. -/
theorem update_favorites_missing_file_cex :
    (updateFavorites (Except.ok ["c"]) none stFavX).1 = Except.ok ()
    ∧ (updateFavorites (Except.ok ["c"]) none stFavX).2.1.favorites ≠ [] :=
  ⟨rfl, by decide⟩

/-- C8 (amended): when the favorites file does not exist, `update_favorites`
creates the sub-directory and an empty favorites file and succeeds, returning
early with the in-memory favorites set unchanged — so it is empty afterwards
exactly when it was empty before the call (as in the startup flow), not
regardless of the prior value. -/
theorem update_favorites_missing_file_spec (d : FsPath) (s : Huds) :
    (updateFavorites (Except.ok d) none s).1 = Except.ok ()
    ∧ (updateFavorites (Except.ok d) none s).2.2 = some ""
    ∧ (updateFavorites (Except.ok d) none s).2.1.favorites = s.favorites :=
  ⟨rfl, rfl, rfl⟩

/-! ### Activation -/

theorem find?_name_eq_none {l : List Hud} {name : String}
    (hmem : ∀ h ∈ l, h.name ≠ name) :
    l.find? (fun h => h.name == name) = none := by
  rw [List.find?_eq_none]
  intro h hh
  simp [hmem h hh]

theorem setPathFirst_names {l : List Hud} {n2 : String} {p : FsPath} :
    ∀ h ∈ setPathFirst l n2 p, ∃ h0 ∈ l, h.name = h0.name := by
  induction l with
  | nil =>
    intro h hh
    simp [setPathFirst] at hh
  | cons x xs ih =>
    intro h hh
    simp only [setPathFirst] at hh
    by_cases hx : x.name = n2
    · rw [if_pos hx] at hh
      rcases List.mem_cons.mp hh with he | hh2
      · exact ⟨x, List.mem_cons_self x xs, by rw [he]⟩
      · exact ⟨h, List.mem_cons_of_mem x hh2, rfl⟩
    · rw [if_neg hx] at hh
      rcases List.mem_cons.mp hh with he | hh2
      · exact ⟨x, List.mem_cons_self x xs, by rw [he]⟩
      · rcases ih h hh2 with ⟨h0, h0m, he⟩
        exact ⟨h0, List.mem_cons_of_mem x h0m, he⟩

/-- C5: when the recorded active hud's backing directory still exists on
disk, activating that hud's own name fails with the already-active error,
performs no directory relocation, and leaves `huds`, `active_hud` and
`favorites` (and the disk) exactly as they were. -/
theorem set_active_already_active (d : FsPath) (s : Huds) (fs : DiskState)
    (a : Hud) (hact : s.active_hud = some a) (hex : fs.existsDir a.path = true) :
    setActiveHud (Except.ok d) s a.name fs = (Except.error Err.alreadyActive, s, fs) := by
  simp [setActiveHud, hact, Option.filter, hex]

theorem set_active_already_active_witness :
    setActiveHud (Except.ok ["c"]) stAB "A" fsAB
      = (Except.error Err.alreadyActive, stAB, fsAB) :=
  set_active_already_active ["c"] stAB fsAB hudA rfl (by decide)

/-- C9: when there is no recorded active hud, or its backing directory no
longer exists on disk, activation never raises the already-active error and
never relocates the old active hud — the only rename it can perform (and,
when the requested hud is found and its directory is on disk, does perform)
moves the requested hud's directory into the content root. -/
theorem set_active_stale_active_skipped (d : FsPath) (s : Huds) (name : String)
    (fs : DiskState)
    (hstale : ∀ a, s.active_hud = some a → fs.existsDir a.path = false) :
    (setActiveHud (Except.ok d) s name fs).1 ≠ Except.error Err.alreadyActive
    ∧ ((setActiveHud (Except.ok d) s name fs).2.2.log = fs.log
       ∨ ∃ src, (setActiveHud (Except.ok d) s name fs).2.2.log
           = fs.log ++ [(src, d ++ [name])]) := by
  have hfilter : Option.filter (fun h => fs.existsDir h.path) s.active_hud = none := by
    cases hac : s.active_hud with
    | none => rfl
    | some a => simp [Option.filter, hstale a hac]
  cases hfind : s.huds.find? (fun h => h.name == name) with
  | none =>
    have hred : setActiveHud (Except.ok d) s name fs
        = (Except.error (Err.panicked "hud should exist"), s, fs) := by
      simp [setActiveHud, hfilter, activateTarget, hfind]
    rw [hred]
    exact ⟨by simp, Or.inl rfl⟩
  | some h =>
    cases hren : fs.rename h.path (d ++ [name]) with
    | none =>
      have hred : setActiveHud (Except.ok d) s name fs
          = (Except.error (Err.io "failed to move hud"), s, fs) := by
        simp [setActiveHud, hfilter, activateTarget, hfind, hren]
      rw [hred]
      exact ⟨by simp, Or.inl rfl⟩
    | some fs1 =>
      have hlog : fs1.log = fs.log ++ [(h.path, d ++ [name])] := by
        unfold DiskState.rename at hren
        by_cases hc : fs.dirs.contains h.path
        · rw [if_pos hc] at hren
          injection hren with h1
          rw [← h1]
        · rw [if_neg hc] at hren
          exact absurd hren (by simp)
      have hred1 : (setActiveHud (Except.ok d) s name fs).1 = Except.ok () := by
        simp [setActiveHud, hfilter, activateTarget, hfind, hren]
      have hred2 : (setActiveHud (Except.ok d) s name fs).2.2 = fs1 := by
        simp [setActiveHud, hfilter, activateTarget, hfind, hren]
      constructor
      · rw [hred1]
        simp
      · exact Or.inr ⟨h.path, by rw [hred2, hlog]⟩

theorem set_active_stale_active_skipped_witness :
    (setActiveHud (Except.ok ["c"]) stAB "B" fsB).1 ≠ Except.error Err.alreadyActive
    ∧ ((setActiveHud (Except.ok ["c"]) stAB "B" fsB).2.2.log = fsB.log
       ∨ ∃ src, (setActiveHud (Except.ok ["c"]) stAB "B" fsB).2.2.log
           = fsB.log ++ [(src, ["c"] ++ ["B"])]) :=
  set_active_stale_active_skipped ["c"] stAB "B" fsB
    (by
      intro a ha
      simp only [stAB] at ha
      injection ha with ha2
      rw [← ha2]
      decide)

/-- C6 counterexample: activating a name that occurs nowhere in the (empty)
collection panics with "hud should exist" — the process-aborting `expect` —
instead of returning the not-found error the claim requires. -/
theorem set_active_missing_cex :
    (setActiveHud (Except.ok ["c"]) st0 "x" { dirs := [], log := [] }).1
      = Except.error (Err.panicked "hud should exist")
    ∧ (setActiveHud (Except.ok ["c"]) st0 "x" { dirs := [], log := [] }).1
      ≠ Except.error Err.notFound :=
  ⟨rfl, by decide⟩

/-- C6 (amended): activating a name that occurs nowhere in `huds` never
succeeds and never returns the not-found error: it fails with the
already-active error (when the name coincides with an on-disk active hud's
name), or with an I/O error (moving the old active hud away failed), or it
panics with "hud should exist" — a process abort, not an error return — at
the `find_hud` lookup. -/
theorem set_active_missing_panics (d : FsPath) (s : Huds) (name : String)
    (fs : DiskState) (hmem : ∀ h ∈ s.huds, h.name ≠ name) :
    (setActiveHud (Except.ok d) s name fs).1 = Except.error Err.alreadyActive
    ∨ (setActiveHud (Except.ok d) s name fs).1 = Except.error (Err.io "failed to move hud")
    ∨ (setActiveHud (Except.ok d) s name fs).1
        = Except.error (Err.panicked "hud should exist") := by
  cases hfil : Option.filter (fun h => fs.existsDir h.path) s.active_hud with
  | none =>
    right; right
    have hred : setActiveHud (Except.ok d) s name fs
        = (Except.error (Err.panicked "hud should exist"), s, fs) := by
      simp [setActiveHud, hfil, activateTarget, find?_name_eq_none hmem]
    rw [hred]
  | some a =>
    by_cases hname : name = a.name
    · left
      have hred : setActiveHud (Except.ok d) s name fs
          = (Except.error Err.alreadyActive, s, fs) := by
        simp [setActiveHud, hfil, hname]
      rw [hred]
    · cases hren : fs.rename a.path (d ++ [HUDS, a.name]) with
      | none =>
        right; left
        have hred : setActiveHud (Except.ok d) s name fs
            = (Except.error (Err.io "failed to move hud"), s, fs) := by
          simp [setActiveHud, hfil, hname, hren]
        rw [hred]
      | some fs1 =>
        right; right
        cases hfind2 : s.huds.find? (fun h => h.name == a.name) with
        | none =>
          have hred : setActiveHud (Except.ok d) s name fs
              = (Except.error (Err.panicked "hud should exist"), s, fs1) := by
            simp [setActiveHud, hfil, hname, hren, hfind2]
          rw [hred]
        | some b =>
          have hmem2 : ∀ h ∈ setPathFirst s.huds a.name (d ++ [HUDS, a.name]),
              h.name ≠ name := by
            intro h hh
            rcases setPathFirst_names h hh with ⟨h0, h0m, he⟩
            rw [he]
            exact hmem h0 h0m
          have hred : setActiveHud (Except.ok d) s name fs
              = (Except.error (Err.panicked "hud should exist"),
                 { s with huds := setPathFirst s.huds a.name (d ++ [HUDS, a.name]) },
                 fs1) := by
            simp [setActiveHud, hfil, hname, hren, hfind2, activateTarget,
              find?_name_eq_none hmem2]
          rw [hred]

theorem set_active_missing_panics_witness :
    (setActiveHud (Except.ok ["c"]) st0 "y" { dirs := [], log := [] }).1
        = Except.error Err.alreadyActive
    ∨ (setActiveHud (Except.ok ["c"]) st0 "y" { dirs := [], log := [] }).1
        = Except.error (Err.io "failed to move hud")
    ∨ (setActiveHud (Except.ok ["c"]) st0 "y" { dirs := [], log := [] }).1
        = Except.error (Err.panicked "hud should exist") :=
  set_active_missing_panics ["c"] st0 "y" { dirs := [], log := [] }
    (by intro h hh; simp [st0] at hh)

/-! ### Search filtering -/

/-- For `highest` in the range the scoring capability can produce (any bound
up to `2^25 / 3` works; nucleo's bonus-based scores stay far below it), the
exact `f32` threshold test of the code coincides with the rational threshold
`score / highest ≥ 0.8`. -/
theorem ratioGe80_iff_ratio (score highest : Nat) (h1 : 1 ≤ highest)
    (h2 : highest ≤ 11184810) :
    ratioGe80 score highest = true ↔ 4 * highest ≤ 5 * score := by
  unfold ratioGe80
  simp only [decide_eq_true_eq]
  omega

/-- C4: for every non-empty query: if the matcher returns no matches, the
search signals the "no results" error and the result set is empty; otherwise
no error is raised, the top score is the maximum score over all matches, and
the result set is exactly the matching names whose score divided by that
maximum is at least 0.8 — so in particular every name achieving the maximum
score is returned. The hypotheses record the contract of the external
matching capability: `Pattern::match_list` returns its matches sorted by
descending score, and every match of a non-empty pattern has a positive
score; the score bound keeps the code's `f32` comparison equal to the
rational threshold (`ratioGe80_iff_ratio`). -/
theorem search_relative_threshold (q : String) (results : List ScoredName)
    (hq : q ≠ "")
    (hsorted : results.Pairwise (fun a b => b.score ≤ a.score))
    (hpos : ∀ r ∈ results, 1 ≤ r.score)
    (hbound : ∀ r ∈ results, r.score ≤ 11184810) :
    (results = [] → App.search q results = ([], some "no results"))
    ∧ (∀ r0 rest, results = r0 :: rest →
        (App.search q results).2 = none
        ∧ (∀ r ∈ results, r.score ≤ r0.score)
        ∧ (∀ n, n ∈ (App.search q results).1
            ↔ ∃ r ∈ results, r.name = n ∧ 4 * r0.score ≤ 5 * r.score)
        ∧ (∀ r ∈ results, r.score = r0.score
            → r.name ∈ (App.search q results).1)) := by
  constructor
  · intro he
    subst he
    simp [App.search, hq]
  · intro r0 rest he
    subst he
    have hmax : ∀ r ∈ r0 :: rest, r.score ≤ r0.score := by
      intro r hr
      rcases List.mem_cons.mp hr with he2 | hr2
      · subst he2
        exact Nat.le_refl _
      · exact (List.pairwise_cons.mp hsorted).1 r hr2
    have h1 : 1 ≤ r0.score := hpos r0 (List.mem_cons_self r0 rest)
    have h2 : r0.score ≤ 11184810 := hbound r0 (List.mem_cons_self r0 rest)
    have hsearch : App.search q (r0 :: rest)
        = ((((r0 :: rest).filter (fun r => ratioGe80 r.score r0.score)).map
            (fun r => r.name)).foldl setInsert [], none) := by
      simp [App.search, hq]
    have hmem : ∀ n, n ∈ (App.search q (r0 :: rest)).1
        ↔ ∃ r ∈ r0 :: rest, r.name = n ∧ 4 * r0.score ≤ 5 * r.score := by
      intro n
      rw [hsearch]
      show n ∈ List.foldl setInsert [] _ ↔ _
      rw [mem_foldl_setInsert]
      simp only [List.mem_map, List.mem_filter, List.not_mem_nil, false_or]
      constructor
      · rintro ⟨r, ⟨hrm, hrt⟩, rfl⟩
        exact ⟨r, hrm, rfl, (ratioGe80_iff_ratio _ _ h1 h2).mp hrt⟩
      · rintro ⟨r, hrm, rfl, hrt⟩
        exact ⟨r, ⟨hrm, (ratioGe80_iff_ratio _ _ h1 h2).mpr hrt⟩, rfl⟩
    refine ⟨by rw [hsearch], hmax, hmem, ?_⟩
    intro r hr hscore
    exact (hmem r.name).mpr ⟨r, hr, rfl, by rw [hscore]; omega⟩

theorem search_relative_threshold_witness :
    (demoResults = [] → App.search "Alph" demoResults = ([], some "no results"))
    ∧ (∀ r0 rest, demoResults = r0 :: rest →
        (App.search "Alph" demoResults).2 = none
        ∧ (∀ r ∈ demoResults, r.score ≤ r0.score)
        ∧ (∀ n, n ∈ (App.search "Alph" demoResults).1
            ↔ ∃ r ∈ demoResults, r.name = n ∧ 4 * r0.score ≤ 5 * r.score)
        ∧ (∀ r ∈ demoResults, r.score = r0.score
            → r.name ∈ (App.search "Alph" demoResults).1)) :=
  search_relative_threshold "Alph" demoResults (by decide) (by decide)
    (by decide) (by decide)
